import Mathlib

/-!
Shallow embedding of the `bnl` boolean-logic network, translated from
`src/network.rs`.  Machine integers (`u8`, `usize`) are embedded as `Nat`;
no arithmetic in the source can overflow, and the single `match` over a
`u8` operator code sends every value `>= 15` to the same default arm, so
the `Nat` embedding agrees with the `u8` source on all representable
values.  Panics (index out of bounds, the explicit `panic!` in
`zip_combinator`) are embedded as `none` of an `Option` result; a normal
return is `some`.  The thread-local random generator is embedded as an
injected stream of draws (`RngStream`) together with a position that each
draw advances, mirroring the sequential draws of `rand::thread_rng()`.
-/

/-- `compute_boolean` from `src/network.rs` (lines 118-137): the 16-entry
two-input boolean operator table, selected by a `u8` code; every code not
listed (the `_` arm, i.e. any value `>= 15` other than the listed ones)
yields `true`. -/
def compute_boolean (left right : Bool) (combinator : Nat) : Bool :=
  match combinator with
  | 0 => false
  | 1 => left && right
  | 2 => left && !right
  | 3 => left
  | 4 => !left && right
  | 5 => right
  | 6 => (left && !right) || (!left && right)
  | 7 => left || right
  | 8 => !(left || right)
  | 9 => (left && right) || (!left && !right)
  | 10 => !right
  | 11 => left || !right
  | 12 => !left
  | 13 => !left || right
  | 14 => !(left && right)
  | _ => true

/-- `zip_combinator` from `src/network.rs` (lines 140-146).  The Rust
function panics on a zero-length `remaining` vector, and panics with an
index-out-of-bounds when `combinators` is too short (`combinators[0]` on an
empty vector, or slicing `combinators[1..]` of an empty vector); both
aborts are embedded as `none`. -/
def zip_combinator (left : Bool) (remaining : List Bool) (combinators : List Nat) :
    Option Bool :=
  match remaining, combinators with
  | [], _ => none
  | [_], [] => none
  | [r], c :: _ => some (compute_boolean left r c)
  | _ :: _ :: _, [] => none
  | r :: rest, c :: cs => (zip_combinator r rest cs).map (fun v => compute_boolean left v c)

/-- The `Neuron` struct from `src/network.rs` (lines 66-79): a bias, the
vector of input combinator codes, and the result combinator code. -/
structure Neuron where
  bias : Bool
  input_combinators : List Nat
  result_combinator : Nat
  deriving DecidableEq

/-- `Neuron::apply_input` (lines 90-92): `zip_combinator(input[0],
input[1..].to_vec(), &self.input_combinators)`.  Indexing `input[0]` on an
empty vector panics, embedded as `none`. -/
def Neuron.apply_input (n : Neuron) (input : List Bool) : Option Bool :=
  match input with
  | [] => none
  | i :: rest => zip_combinator i rest n.input_combinators

/-- `Neuron::apply_result` (lines 96-98): combine the folded value with the
bias through the result combinator. -/
def Neuron.apply_result (n : Neuron) (input : Bool) : Bool :=
  compute_boolean input n.bias n.result_combinator

/-- `Neuron::apply` (lines 85-87): `apply_result(apply_input(input))`; a
panic inside `apply_input` propagates. -/
def Neuron.apply (n : Neuron) (input : List Bool) : Option Bool :=
  (n.apply_input input).map n.apply_result

/-- The `Layer` struct from `src/network.rs` (lines 5-8). -/
structure Layer where
  neurons : List Neuron

/-- The iterator pipeline of `Layer::apply`:
`neurons.iter().map(|n| n.apply(input.clone())).collect()`, with a panic in
any neuron propagating. -/
def apply_neurons (ns : List Neuron) (input : List Bool) : Option (List Bool) :=
  match ns with
  | [] => some []
  | n :: rest =>
    match n.apply input with
    | none => none
    | some b =>
      match apply_neurons rest input with
      | none => none
      | some bs => some (b :: bs)

/-- `Layer::apply` (lines 13-15): apply every neuron to the same input
vector and collect the results in neuron order. -/
def Layer.apply (l : Layer) (input : List Bool) : Option (List Bool) :=
  apply_neurons l.neurons input

/-- The `Network` struct from `src/network.rs` (lines 31-35). -/
structure Network where
  layers : List Layer

/-- The loop body of `Network::apply`: thread the running result through
each layer in order. -/
def apply_layers (ls : List Layer) (res : List Bool) : Option (List Bool) :=
  match ls with
  | [] => some res
  | l :: rest =>
    match l.apply res with
    | none => none
    | some r => apply_layers rest r

/-- `Network::apply` (lines 40-46): start from a clone of the input and
fold it through the layers. -/
def Network.apply (net : Network) (input : List Bool) : Option (List Bool) :=
  apply_layers net.layers input

/-- The injected random source (the spec treats `rand::thread_rng()` as an
external collaborator producing uniform draws): `boolAt i` is the value of
the `i`-th draw when taken as `rng.gen::<bool>()`, and `natAt i` feeds the
`i`-th draw when taken as `rng.gen_range(0, 16)`, reduced mod 16 to render
the bounded-range contract of `gen_range`.  Every draw advances one shared
stream position, mirroring the single thread-local generator. -/
structure RngStream where
  boolAt : Nat → Bool
  natAt : Nat → Nat

/-- One `rng.gen::<bool>()` draw at stream position `pos`. -/
def RngStream.genBool (rng : RngStream) (pos : Nat) : Bool × Nat :=
  (rng.boolAt pos, pos + 1)

/-- One `rng.gen_range(0, 16)` draw at stream position `pos`: a value in
`[0, 16)`. -/
def RngStream.genRange16 (rng : RngStream) (pos : Nat) : Nat × Nat :=
  (rng.natAt pos % 16, pos + 1)

/-- The `for _i in 0..input_len` loop of `Neuron::new` (lines 105-107):
push `count` range draws in order. -/
def gen_combinators (rng : RngStream) (pos : Nat) : Nat → List Nat × Nat
  | 0 => ([], pos)
  | count + 1 =>
    let d := rng.genRange16 pos
    let rest := gen_combinators rng d.2 count
    (d.1 :: rest.1, rest.2)

/-- `Neuron::new` (lines 101-113): draw `input_len` input-combinator codes,
then the bias, then the result combinator, from the shared stream. -/
def Neuron.new (rng : RngStream) (pos : Nat) (input_len : Nat) : Neuron × Nat :=
  let icp := gen_combinators rng pos input_len
  let bp := rng.genBool icp.2
  let rcp := rng.genRange16 bp.2
  (⟨bp.1, icp.1, rcp.1⟩, rcp.2)

/-- The `for _i in 0..num_neurons` loop of `Layer::new` (lines 19-28). -/
def gen_neurons (rng : RngStream) (pos : Nat) (input_len : Nat) : Nat → List Neuron × Nat
  | 0 => ([], pos)
  | count + 1 =>
    let np := Neuron.new rng pos input_len
    let rest := gen_neurons rng np.2 input_len count
    (np.1 :: rest.1, rest.2)

/-- `Layer::new` (lines 19-28): `num_neurons` fresh neurons of the given
input length. -/
def Layer.new (rng : RngStream) (pos : Nat) (input_len num_neurons : Nat) : Layer × Nat :=
  let np := gen_neurons rng pos input_len num_neurons
  (⟨np.1⟩, np.2)

/-- The `for i in 0..layer_lengths.len()` loop of `Network::new`
(lines 50-62): layer `i` has input length `input_len` when `i = 0` and
`layer_lengths[i-1]` otherwise, which is exactly the `prev` threading
below. -/
def gen_layers (rng : RngStream) (pos : Nat) (prev : Nat) : List Nat → List Layer × Nat
  | [] => ([], pos)
  | len :: rest =>
    let lp := Layer.new rng pos prev len
    let restp := gen_layers rng lp.2 len rest
    (lp.1 :: restp.1, restp.2)

/-- `Network::new` (lines 50-62). -/
def Network.new (rng : RngStream) (pos : Nat) (input_len : Nat)
    (layer_lengths : List Nat) : Network × Nat :=
  let lp := gen_layers rng pos input_len layer_lengths
  (⟨lp.1⟩, lp.2)

/-- A concrete deterministic random stream used for witnesses and
counterexamples: every boolean draw is `false`, every ranged draw is `0`. -/
def rng0 : RngStream := ⟨fun _ => false, fun _ => 0⟩

/-- Claim C4: for all boolean operands and every code 0 through 15,
`compute_boolean` returns exactly the truth-table value of section 4.1 of
the spec. -/
theorem compute_boolean_table (left right : Bool) :
    compute_boolean left right 0 = false ∧
    compute_boolean left right 1 = (left && right) ∧
    compute_boolean left right 2 = (left && !right) ∧
    compute_boolean left right 3 = left ∧
    compute_boolean left right 4 = (!left && right) ∧
    compute_boolean left right 5 = right ∧
    compute_boolean left right 6 = xor left right ∧
    compute_boolean left right 7 = (left || right) ∧
    compute_boolean left right 8 = !(left || right) ∧
    compute_boolean left right 9 = !(xor left right) ∧
    compute_boolean left right 10 = !right ∧
    compute_boolean left right 11 = (left || !right) ∧
    compute_boolean left right 12 = !left ∧
    compute_boolean left right 13 = (!left || right) ∧
    compute_boolean left right 14 = !(left && right) ∧
    compute_boolean left right 15 = true := by
  cases left <;> cases right <;> decide

/-- Claim C8: every operator code greater than 15 behaves as the
constant-true operator, identically to code 15, and never errors. -/
theorem compute_boolean_default_true (left right : Bool) (c : Nat) (h : 15 < c) :
    compute_boolean left right c = true := by
  obtain ⟨k, rfl⟩ : ∃ k, c = k + 16 := ⟨c - 16, by omega⟩
  rfl

/-- Witness for C8 at the concrete code 16. -/
theorem compute_boolean_default_true_witness :
    compute_boolean true false 16 = true :=
  compute_boolean_default_true true false 16 (by decide)

/-- Modelled from the spec's words for claim C1 (section 4.2): the
right-associative pairwise fold.  With exactly two elements remaining the
result is `compute_boolean(input[L-2], input[L-1], input_combinators[L-2])`;
at position `i` the result is `compute_boolean(input[i], fold of the tail,
input_combinators[i])`.  Inputs outside the contract (fewer than two
elements, or too few combinators) are mapped to `false`; the claim only
constrains the in-contract region.  This definition is compared against the
source-derived `zip_combinator`. -/
def spec_fold : List Bool → List Nat → Bool
  | [a, b], c :: _ => compute_boolean a b c
  | a :: b :: r :: rest, c :: cs => compute_boolean a (spec_fold (b :: r :: rest) cs) c
  | _, _ => false

/-- Under the length precondition, `zip_combinator` always returns a value:
the zero-length panic branch and every index are in bounds. -/
theorem zip_combinator_isSome :
    ∀ (remaining : List Bool) (left : Bool) (combinators : List Nat),
      1 ≤ remaining.length → remaining.length ≤ combinators.length →
      (zip_combinator left remaining combinators).isSome
  | [], _, _, h1, _ => by simp at h1
  | [_], _, [], _, h2 => by simp at h2
  | [r], left, c :: cs, _, _ => by simp [zip_combinator]
  | _ :: _ :: _, _, [], _, h2 => by simp at h2
  | r :: r2 :: rest, left, c :: cs, _, h2 => by
    have ih := zip_combinator_isSome (r2 :: rest) r cs (by simp)
      (by simp at h2 ⊢; omega)
    obtain ⟨v, hv⟩ := Option.isSome_iff_exists.mp ih
    simp [zip_combinator, hv]

/-- Under the length precondition, the source fold `zip_combinator` computes
exactly the spec's right-associative pairwise fold. -/
theorem zip_combinator_eq_spec_fold :
    ∀ (remaining : List Bool) (left : Bool) (combinators : List Nat),
      1 ≤ remaining.length → remaining.length ≤ combinators.length →
      zip_combinator left remaining combinators =
        some (spec_fold (left :: remaining) combinators)
  | [], _, _, h1, _ => by simp at h1
  | [_], _, [], _, h2 => by simp at h2
  | [r], left, c :: cs, _, _ => rfl
  | _ :: _ :: _, _, [], _, h2 => by simp at h2
  | r :: r2 :: rest, left, c :: cs, _, h2 => by
    have ih := zip_combinator_eq_spec_fold (r2 :: rest) r cs (by simp)
      (by simp at h2 ⊢; omega)
    simp only [zip_combinator, ih, Option.map_some']
    rfl

/-- `zip_combinator` reads only the first `remaining.length` entries of the
combinator vector. -/
theorem zip_combinator_congr :
    ∀ (remaining : List Bool) (left : Bool) (c1 c2 : List Nat),
      (∀ i, i < remaining.length → c1[i]? = c2[i]?) →
      zip_combinator left remaining c1 = zip_combinator left remaining c2
  | [], _, _, _, _ => rfl
  | [r], left, c1, c2, h => by
    have h0 := h 0 (by simp)
    cases c1 with
    | nil =>
      cases c2 with
      | nil => rfl
      | cons b bs => simp at h0
    | cons a as =>
      cases c2 with
      | nil => simp at h0
      | cons b bs =>
        simp at h0
        subst h0
        rfl
  | r :: r2 :: rest, left, c1, c2, h => by
    have h0 := h 0 (by simp)
    cases c1 with
    | nil =>
      cases c2 with
      | nil => rfl
      | cons b bs => simp at h0
    | cons a as =>
      cases c2 with
      | nil => simp at h0
      | cons b bs =>
        simp at h0
        subst h0
        have ih := zip_combinator_congr (r2 :: rest) r as bs (fun i hi => by
          have hs := h (i + 1) (by simp at hi ⊢; omega)
          simpa using hs)
        simp only [zip_combinator, ih]

/-- Claim C1: for a neuron with input of length `L >= 2` and at least
`L - 1` input combinators, `Neuron::apply` returns (embedded: `some` of)
`compute_boolean(fold, bias, result_combinator)` where `fold` is the
spec's right-associative pairwise reduction `spec_fold`. -/
theorem neuron_apply_eq_spec_fold (n : Neuron) (input : List Bool)
    (hlen : 2 ≤ input.length)
    (hc : input.length - 1 ≤ n.input_combinators.length) :
    n.apply input =
      some (compute_boolean (spec_fold input n.input_combinators) n.bias
        n.result_combinator) := by
  cases input with
  | nil => simp at hlen
  | cons i rest =>
    have h1 : 1 ≤ rest.length := by simp at hlen; omega
    have h2 : rest.length ≤ n.input_combinators.length := by simp at hc; omega
    show (Neuron.apply_input n (i :: rest)).map n.apply_result = _
    show (zip_combinator i rest n.input_combinators).map n.apply_result = _
    rw [zip_combinator_eq_spec_fold rest i n.input_combinators h1 h2]
    rfl

/-- Witness for C1: the spec's own section-8 example, a neuron with
combinators `[1, 7]` (AND then OR) on input `[true, false, true]`. -/
theorem neuron_apply_eq_spec_fold_witness :
    Neuron.apply ⟨false, [1, 7], 3⟩ [true, false, true] =
      some (compute_boolean (spec_fold [true, false, true] [1, 7]) false 3) :=
  neuron_apply_eq_spec_fold ⟨false, [1, 7], 3⟩ [true, false, true]
    (by decide) (by decide)

/-- Claim C5: an input vector of length 0 or 1 makes `Neuron::apply_input`
(and hence `Neuron::apply`) abort — `input[0]` panics on an empty vector
and `zip_combinator` hits its explicit panic on a length-1 vector — so no
boolean value is returned (embedded: the result is `none`). -/
theorem neuron_short_input_aborts (n : Neuron) (input : List Bool)
    (h : input.length < 2) :
    n.apply_input input = none ∧ n.apply input = none := by
  cases input with
  | nil => exact ⟨rfl, rfl⟩
  | cons a rest =>
    cases rest with
    | nil => exact ⟨rfl, rfl⟩
    | cons b rest2 => simp at h; omega

/-- Witness for C5 at the concrete length-1 input `[true]`. -/
theorem neuron_short_input_aborts_witness :
    Neuron.apply_input ⟨false, [0], 0⟩ [true] = none ∧
    Neuron.apply ⟨false, [0], 0⟩ [true] = none :=
  neuron_short_input_aborts ⟨false, [0], 0⟩ [true] (by decide)

/-- Claim C9: two combinator vectors of length at least `L - 1` that agree
on indices `0` through `L - 2` yield the same `Neuron::apply_input` result
on any input of length `L >= 2`: entries at index `L - 1` and beyond (in
particular the last of the `input_len` combinators `Neuron::new`
generates) are never consulted. -/
theorem apply_input_ignores_tail_combinators (bias : Bool) (rc : Nat)
    (c1 c2 : List Nat) (input : List Bool)
    (hlen : 2 ≤ input.length)
    (h1 : input.length - 1 ≤ c1.length) (h2 : input.length - 1 ≤ c2.length)
    (hagree : ∀ i, i < input.length - 1 → c1[i]? = c2[i]?) :
    Neuron.apply_input ⟨bias, c1, rc⟩ input =
      Neuron.apply_input ⟨bias, c2, rc⟩ input := by
  cases input with
  | nil => simp at hlen
  | cons i rest =>
    exact zip_combinator_congr rest i c1 c2
      (fun j hj => hagree j (by simp at hj ⊢; omega))

/-- Witness for C9: combinator vectors `[1, 7, 0]` and `[1, 7, 5]` differ
only at index 2 = L - 1 and give the same result on a length-3 input. -/
theorem apply_input_ignores_tail_combinators_witness :
    Neuron.apply_input ⟨false, [1, 7, 0], 3⟩ [true, false, true] =
      Neuron.apply_input ⟨false, [1, 7, 5], 3⟩ [true, false, true] :=
  apply_input_ignores_tail_combinators false 3 [1, 7, 0] [1, 7, 5]
    [true, false, true] (by decide) (by decide) (by decide)
    (by intro i hi; simp at hi; interval_cases i <;> rfl)

/-- Claim C10: under the precondition (input length `L >= 2`, at least
`L - 1` combinators) `zip_combinator` and hence `Neuron::apply_input`
terminate with a boolean: the zero-length panic branch and every index are
in bounds, embedded as the result being `some`. -/
theorem zip_combinator_total :
    (∀ (left : Bool) (remaining : List Bool) (combinators : List Nat),
        1 ≤ remaining.length → remaining.length ≤ combinators.length →
        (zip_combinator left remaining combinators).isSome) ∧
    (∀ (n : Neuron) (input : List Bool),
        2 ≤ input.length → input.length - 1 ≤ n.input_combinators.length →
        (n.apply_input input).isSome) := by
  refine ⟨fun left rem c h1 h2 => zip_combinator_isSome rem left c h1 h2, ?_⟩
  intro n input h1 h2
  cases input with
  | nil => simp at h1
  | cons i rest =>
    exact zip_combinator_isSome rest i n.input_combinators
      (by simp at h1; omega) (by simp at h2 ⊢; omega)

/-- Witness for C10 at concrete inputs. -/
theorem zip_combinator_total_witness :
    (zip_combinator true [false] [3]).isSome ∧
    (Neuron.apply_input ⟨false, [2, 2], 1⟩ [true, false]).isSome :=
  ⟨zip_combinator_total.1 true [false] [3] (by decide) (by decide),
   zip_combinator_total.2 ⟨false, [2, 2], 1⟩ [true, false] (by decide) (by decide)⟩

/-- Claim C6: `Network::apply` threads the input sequentially through the
layers — on an empty layer sequence it returns the original input
unchanged, and on `l :: ls` it feeds the input to `l` and threads `l`'s
output through the remaining layers. -/
theorem network_apply_threads_layers :
    (∀ (input : List Bool), Network.apply ⟨[]⟩ input = some input) ∧
    (∀ (l : Layer) (ls : List Layer) (input : List Bool),
        Network.apply ⟨l :: ls⟩ input =
          (Layer.apply l input).bind fun out => Network.apply ⟨ls⟩ out) := by
  refine ⟨fun input => rfl, fun l ls input => ?_⟩
  show apply_layers (l :: ls) input = _
  cases h : Layer.apply l input with
  | none => simp [apply_layers, h, Network.apply]
  | some r => simp [apply_layers, h, Network.apply]

/-- Each neuron of a list evaluating to `some` value makes the collected
list evaluate to `some` output of the same length, pointwise equal to the
individual neuron results. -/
theorem apply_neurons_spec :
    ∀ (ns : List Neuron) (input : List Bool),
      (∀ n ∈ ns, (Neuron.apply n input).isSome) →
      ∃ out, apply_neurons ns input = some out ∧ out.length = ns.length ∧
        ∀ (j : Nat) (hj : j < out.length) (hj2 : j < ns.length),
          some (out.get ⟨j, hj⟩) = Neuron.apply (ns.get ⟨j, hj2⟩) input
  | [], _, _ => ⟨[], rfl, rfl, fun j hj _ => absurd hj (by simp)⟩
  | n :: rest, input, h => by
    obtain ⟨b, hb⟩ := Option.isSome_iff_exists.mp (h n (List.mem_cons_self n rest))
    obtain ⟨out, hout, hlen, hget⟩ :=
      apply_neurons_spec rest input (fun m hm => h m (List.mem_cons_of_mem n hm))
    refine ⟨b :: out, ?_, by simp [hlen], ?_⟩
    · simp [apply_neurons, hb, hout]
    · intro j hj hj2
      cases j with
      | zero => simpa using hb.symm
      | succ k =>
        simpa using hget k (by simpa using hj) (by simpa using hj2)

/-- Claim C7: when every neuron's evaluation is defined, `Layer::apply`
returns a vector with one entry per neuron, whose `j`-th element is
exactly neuron `j` applied to the same whole input vector, in neuron
order. -/
theorem layer_apply_pointwise (l : Layer) (input : List Bool)
    (h : ∀ n ∈ l.neurons, (Neuron.apply n input).isSome) :
    ∃ out, Layer.apply l input = some out ∧ out.length = l.neurons.length ∧
      ∀ (j : Nat) (hj : j < out.length) (hj2 : j < l.neurons.length),
        some (out.get ⟨j, hj⟩) = Neuron.apply (l.neurons.get ⟨j, hj2⟩) input :=
  apply_neurons_spec l.neurons input h

/-- A concrete two-neuron layer used to witness C7. -/
def demoLayer : Layer := ⟨[⟨false, [1, 7], 3⟩, ⟨true, [6, 6], 9⟩]⟩

/-- Witness for C7 on the concrete layer `demoLayer` and a length-3
input. -/
theorem layer_apply_pointwise_witness :
    ∃ out, Layer.apply demoLayer [true, false, true] = some out ∧
      out.length = demoLayer.neurons.length ∧
      ∀ (j : Nat) (hj : j < out.length) (hj2 : j < demoLayer.neurons.length),
        some (out.get ⟨j, hj⟩) =
          Neuron.apply (demoLayer.neurons.get ⟨j, hj2⟩) [true, false, true] :=
  layer_apply_pointwise demoLayer [true, false, true] (by decide)

/-- Every neuron with at least `L - 1` combinators evaluates to a value on
an input of length `L >= 2`. -/
theorem neuron_apply_isSome (n : Neuron) (input : List Bool)
    (h1 : 2 ≤ input.length)
    (h2 : input.length - 1 ≤ n.input_combinators.length) :
    (Neuron.apply n input).isSome := by
  cases input with
  | nil => simp at h1
  | cons i rest =>
    have hz := zip_combinator_isSome rest i n.input_combinators
      (by simp at h1; omega) (by simp at h2 ⊢; omega)
    obtain ⟨v, hv⟩ := Option.isSome_iff_exists.mp hz
    simp [Neuron.apply, Neuron.apply_input, hv]

/-- Claim C3 (amended): no `apply` in the code validates the input length
— there is no `DimensionMismatch` error anywhere.  A layer applied to an
input of length at least 2, with enough combinators in every neuron,
returns a normal result regardless of any declared input length. -/
theorem layer_apply_no_dimension_check (l : Layer) (input : List Bool)
    (hlen : 2 ≤ input.length)
    (hc : ∀ n ∈ l.neurons, input.length - 1 ≤ n.input_combinators.length) :
    (Layer.apply l input).isSome := by
  obtain ⟨out, hout, -, -⟩ :=
    apply_neurons_spec l.neurons input
      (fun n hn => neuron_apply_isSome n input hlen (hc n hn))
  simp [Layer.apply, hout]

/-- A network built by `Network::new` with declared input length 6, one
layer of one neuron, from the concrete stream `rng0`. -/
def demoNet : Network := (Network.new rng0 0 6 [1]).1

/-- Claim C3 counterexample: `demoNet` was constructed with declared input
length 6, yet applying it to a length-3 input returns the normal result
`some [false]` — the mismatched input is silently accepted instead of
failing with a `DimensionMismatch` error (embedded: `none`). -/
theorem network_apply_dimension_counterexample :
    ([true, false, true] : List Bool).length ≠ 6 ∧
    Network.apply demoNet [true, false, true] = some [false] :=
  ⟨by decide, by decide⟩

/-- Witness for the amended C3 on a concrete layer and a length-3 input. -/
theorem layer_apply_no_dimension_check_witness :
    (Layer.apply demoLayer [true, false, true]).isSome :=
  layer_apply_no_dimension_check demoLayer [true, false, true]
    (by decide) (by decide)

/-- The combinator-generating loop of `Neuron::new` pushes exactly `count`
codes. -/
theorem gen_combinators_length (rng : RngStream) :
    ∀ (count pos : Nat), (gen_combinators rng pos count).1.length = count
  | 0, _ => rfl
  | count + 1, pos => by
    simp only [gen_combinators, List.length_cons]
    rw [gen_combinators_length rng count]

/-- `Neuron::new(input_len)` draws exactly `input_len` input combinators
(the loop runs over `0..input_len`). -/
theorem neuron_new_combinators_length (rng : RngStream) (pos input_len : Nat) :
    ((Neuron.new rng pos input_len).1).input_combinators.length = input_len := by
  simp [Neuron.new, gen_combinators_length]

/-- Every neuron produced by the `Layer::new` loop has `input_len`
combinators. -/
theorem gen_neurons_mem (rng : RngStream) (input_len : Nat) :
    ∀ (count pos : Nat), ∀ n ∈ (gen_neurons rng pos input_len count).1,
      n.input_combinators.length = input_len
  | 0, pos, n, hn => absurd hn (by simp [gen_neurons])
  | count + 1, pos, n, hn => by
    simp only [gen_neurons, List.mem_cons] at hn
    rcases hn with h | h
    · subst h
      exact neuron_new_combinators_length rng pos input_len
    · exact gen_neurons_mem rng input_len count _ n h

/-- Every layer produced by the `Network::new` loop, paired with its
declared input length (`prev` for the first layer, the preceding layer
length after), has neurons with that many combinators. -/
theorem gen_layers_mem (rng : RngStream) :
    ∀ (lls : List Nat) (pos prev : Nat),
      ∀ p ∈ ((gen_layers rng pos prev lls).1).zip (prev :: lls),
        ∀ n ∈ p.1.neurons, n.input_combinators.length = p.2
  | [], pos, prev, p, hp => absurd hp (by simp [gen_layers])
  | len :: rest, pos, prev, p, hp => by
    simp only [gen_layers, List.zip_cons_cons, List.mem_cons] at hp
    rcases hp with h | h
    · subst h
      intro n hn
      exact gen_neurons_mem rng prev len pos n hn
    · exact gen_layers_mem rng rest _ len p h

/-- Claim C2 (amended): every neuron built by `Neuron::new(input_len)`
carries exactly `input_len` input combinators — one per input position,
one more than the `input_len - 1` the fold consumes — and likewise every
neuron inside a `Layer::new` or `Network::new` construction carries as
many combinators as its layer's declared input length. -/
theorem new_combinator_count :
    (∀ (rng : RngStream) (pos input_len : Nat),
        ((Neuron.new rng pos input_len).1).input_combinators.length = input_len) ∧
    (∀ (rng : RngStream) (pos input_len num_neurons : Nat),
        ∀ n ∈ ((Layer.new rng pos input_len num_neurons).1).neurons,
          n.input_combinators.length = input_len) ∧
    (∀ (rng : RngStream) (pos input_len : Nat) (layer_lengths : List Nat),
        ∀ p ∈ ((Network.new rng pos input_len layer_lengths).1).layers.zip
            (input_len :: layer_lengths),
          ∀ n ∈ p.1.neurons, n.input_combinators.length = p.2) := by
  refine ⟨neuron_new_combinators_length, ?_, ?_⟩
  · intro rng pos input_len num n hn
    exact gen_neurons_mem rng input_len num pos n hn
  · intro rng pos input_len lls p hp
    exact gen_layers_mem rng lls pos input_len p hp

/-- Claim C2 counterexample: a neuron built with `input_len = 2` carries 2
input combinators, not `2 - 1 = 1` as the claim states. -/
theorem new_combinator_count_counterexample :
    ¬ ((Neuron.new rng0 0 2).1).input_combinators.length = 2 - 1 := by decide

/-- Witness for the amended C2: the first neuron of a concrete two-neuron
layer of input length 3 has 3 combinators. -/
theorem new_combinator_count_witness :
    ((Neuron.new rng0 0 3).1).input_combinators.length = 3 :=
  new_combinator_count.2.1 rng0 0 3 2 ((Neuron.new rng0 0 3).1) (by decide)
